import Mathlib

/-!
Verification of the Gogoro battery-swap bill analyser (`go.py`).

The script reads PDF billing statements, reconstructs text rows from
positioned words, classifies billable rows, extracts station names with a
regular expression plus cleanup rules, aggregates the names into a
frequency table and renders a bar chart.

We shallowly embed the program over `List Char` texts.  Character classes
(`\d`, `\w`, `\s` of the Python regexes and `str.strip`) are modelled over
the alphabet the program actually meets (ASCII plus CJK ideographs):
digits are ASCII digits, word characters are ASCII alphanumerics, the
underscore and CJK ideographs, whitespace is the usual ASCII whitespace.
PDF decoding (`fitz`) is an external collaborator; a decoded page is a
full text plus a list of positioned words, and a document is a list of
page events in which an exception may occur, mirroring the `try`/`except`
structure of `extract_swap_stations_from_pdf`.
-/

namespace Go

/-- CJK ideograph range `一`-`龥` of the station regex. -/
def isCJK (c : Char) : Bool :=
  0x4e00 ≤ c.toNat && c.toNat ≤ 0x9fa5

/-- Python `\w` over the modelled alphabet: ASCII alphanumerics, `_`,
and CJK ideographs (which are word characters in Unicode mode). -/
def isWordChar (c : Char) : Bool :=
  c.isAlphanum || c == '_' || isCJK c

/-- Python `\s` over the modelled alphabet. -/
def isPySpace (c : Char) : Bool :=
  c.isWhitespace

/-- The character class `[一-龥\w\s\d-]` of `station_pattern`. -/
def inClass (c : Char) : Bool :=
  isCJK c || isWordChar c || isPySpace c || c.isDigit || c == '-'

/-- Does the regex `\d{2}:\d{2}:\d{2}` (the body of `time_pattern`)
match at the head of the text? -/
def timeAt : List Char → Bool
  | d1 :: d2 :: c1 :: d3 :: d4 :: c2 :: d5 :: d6 :: _ =>
      d1.isDigit && d2.isDigit && c1 == ':' &&
      d3.isDigit && d4.isDigit && c2 == ':' &&
      d5.isDigit && d6.isDigit
  | _ => false

/-- Model of `time_pattern.search(row_text)`: the regex `\d{2}:\d{2}:\d{2}`
matches at some position of the text. -/
def timeSearch : List Char → Bool
  | [] => false
  | c :: rest => timeAt (c :: rest) || timeSearch rest

/-- Python's substring test `pat in s`. -/
def containsSub (pat : List Char) : List Char → Bool
  | [] => pat.isEmpty
  | c :: rest => pat.isPrefixOf (c :: rest) || containsSub pat rest

/-- The ampere-hour unit marker `(安時)` of line 40. -/
def unitMarker : List Char := "(安時)".data

/-- Row classification, line 40 of `go.py`: the row is kept iff
`time_pattern.search(row_text)` succeeds and `"(安時)" in row_text`. -/
def classifyRow (row_text : List Char) : Bool :=
  timeSearch row_text && containsSub unitMarker row_text

/-- Spec-side reading of §4.2 / §8: the text contains a substring of the
exact shape two digits, colon, two digits, colon, two digits. -/
def timeShape (l : List Char) : Prop :=
  ∃ a d1 d2 d3 d4 d5 d6 b,
    l = a ++ [d1, d2, ':', d3, d4, ':', d5, d6] ++ b ∧
    d1.isDigit ∧ d2.isDigit ∧ d3.isDigit ∧ d4.isDigit ∧ d5.isDigit ∧ d6.isDigit

/-! Station pattern and `re.findall` semantics:

`station_pattern = ([一-龥\w\s\d-]+(?:站|店|門市|公所|中心|停車場))`.
The whole pattern is one capture group, so `findall` returns the full
matches.  The engine scans positions left to right; at a position the
greedy `+` first consumes the maximal run of class characters, then backs
off one character at a time, trying the suffix alternatives in order at
each backtrack point; the six alternatives start with six distinct
characters, so at most one fits at a given point. -/

/-- The suffix alternatives `站|店|門市|公所|中心|停車場`, in the
pattern's order. -/
def suffixTokens : List (List Char) :=
  ["站".data, "店".data, "門市".data, "公所".data, "中心".data, "停車場".data]

/-- If one of the suffix alternatives matches at the head of `s`,
its length (the alternation is tried in order). -/
def suffixAt (s : List Char) : Option Nat :=
  (suffixTokens.find? (fun t => t.isPrefixOf s)).map List.length

/-- If `station_pattern` matches at the head of `s`, the length of the
(greedy, leftmost) match: the largest `p ≥ 1` not exceeding the maximal
class-character run such that a suffix alternative matches right after
the `p` consumed characters. -/
def findMatchEnd (s : List Char) : Option Nat :=
  let m := (s.takeWhile inClass).length
  ((List.range (m + 1)).reverse.filterMap
    (fun p =>
      if 1 ≤ p then (suffixAt (s.drop p)).map (fun len => p + len)
      else none)).head?

/-- Scan loop of `re.findall`: try a match at the current position; on success
emit it and resume after it, otherwise advance one character.  `fuel`
bounds the recursion by the text length (every step consumes at least
one character). -/
def findallAux : Nat → List Char → List (List Char)
  | 0, _ => []
  | _ + 1, [] => []
  | fuel + 1, c :: rest =>
    match findMatchEnd (c :: rest) with
    | some j => (c :: rest).take j :: findallAux fuel ((c :: rest).drop j)
    | none => findallAux fuel rest

/-- Model of `station_pattern.findall(row_text)`, line 43 of `go.py`. -/
def stationFindall (s : List Char) : List (List Char) :=
  findallAux s.length s

/-! Cleanup rules (lines 45-50). -/

/-- Python `str.strip()`: remove leading and trailing whitespace. -/
def pyStrip (s : List Char) : List Char :=
  ((s.dropWhile isPySpace).reverse.dropWhile isPySpace).reverse

/-- Is the character one of the bay designators `A`-`D`? -/
def isABCD (c : Char) : Bool :=
  c == 'A' || c == 'B' || c == 'C' || c == 'D'

/-- Model of `re.sub(r'\s+[A-D]$', '', s)`: if the text ends in at least one
whitespace character followed by a single letter `A`-`D`, remove that
letter together with the whole trailing whitespace run. -/
def subTrailingBay (s : List Char) : List Char :=
  match s.reverse with
  | c :: w :: rest =>
    if isABCD c && isPySpace w then ((w :: rest).dropWhile isPySpace).reverse
    else s
  | _ => s

/-- The free-billing-period exclusion phrase of line 47. -/
def exclPhrase1 : List Char := "換電免費時段折抵".data

/-- The billing-quantity exclusion phrase of line 47. -/
def exclPhrase2 : List Char := "計費數量".data

/-- Lines 45-50: strip a raw candidate, drop it if it contains an
exclusion phrase, trim a trailing bay designator, strip again, and drop
it if it became empty. -/
def processStation (station : List Char) : Option (List Char) :=
  let cleaned := pyStrip station
  if !containsSub exclPhrase1 cleaned && !containsSub exclPhrase2 cleaned then
    let cleaned2 := pyStrip (subTrailingBay cleaned)
    if cleaned2.isEmpty then none else some cleaned2
  else none

/-- The Station Extractor on one classified row text: pattern matches,
then the per-candidate cleanup. -/
def extractStations (row_text : List Char) : List (List Char) :=
  (stationFindall row_text).filterMap processStation

/-! Row reconstruction (lines 32-38). -/

/-- A positioned word from `page.get_text("words")`: its raw vertical
coordinate `word[1]` (modelled as a rational) and its text `word[4]`. -/
structure Token where
  y : ℚ
  text : List Char
deriving DecidableEq

/-- Python 3 `round` to the nearest integer, ties to even. -/
def pyRound (q : ℚ) : ℤ :=
  let f : ℤ := ⌊q⌋
  let r : ℚ := q - f
  if r < 1 / 2 then f
  else if 1 / 2 < r then f + 1
  else if f % 2 = 0 then f else f + 1

/-- The row key of a word, line 34: `round(word[1])`. -/
def rowKey (t : Token) : ℤ := pyRound t.y

/-- Lines 32-38: group words by rounded vertical coordinate (insertion
order within a group) and emit `(key, joined text)` pairs in ascending
key order.  Keys are distinct, so any stable ascending sort coincides
with Python's `sorted`. -/
def reconstructRows (words : List Token) : List (ℤ × List Char) :=
  (List.insertionSort (· ≤ ·) ((words.map rowKey).dedup)).map
    (fun k => (k, ((words.filter (fun t => rowKey t = k)).map Token.text).flatten))

/-! Per-document extraction (lines 17-55). -/

/-- A decoded page: the full text of `page.get_text("text")` and the
positioned words of `page.get_text("words")`. -/
structure Page where
  fullText : List Char
  words : List Token
deriving DecidableEq

/-- The marker phrase of line 25. -/
def pageMarker : List Char := "電池服務明細表".data

/-- Lines 24-50 for one page: skip the page unless the marker phrase is
in its full text and it has words; otherwise reconstruct rows, keep the
classified ones and extract stations from each. -/
def pageStations (p : Page) : List (List Char) :=
  if !containsSub pageMarker p.fullText then []
  else if p.words.isEmpty then []
  else
    ((reconstructRows p.words).map Prod.snd).flatMap
      (fun row_text => if classifyRow row_text then extractStations row_text else [])

/-- One step of processing a document: either a page is decoded and
processed, or the external library raises an exception with a message.
This mirrors the `try` body: an exception aborts the remaining steps. -/
inductive PageStep where
  | page (p : Page)
  | err (e : List Char)
deriving DecidableEq

/-- A document: its path and the sequence of processing steps its pages
produce (an `err` step models an exception raised at that point). -/
structure Doc where
  path : List Char
  steps : List PageStep
deriving DecidableEq

/-- The error message printed by line 53:
`處理檔案 '{pdf_path}' 時發生錯誤: {e}`. -/
def errMsg (path e : List Char) : List Char :=
  "處理檔案 '".data ++ path ++ "' 時發生錯誤: ".data ++ e

/-- The page loop of lines 24-50 under the `try` of line 19: stations
accumulate across pages; the first exception stops the loop, prints the
line-53 message, and the accumulated list is still returned (line 55). -/
def extractAux (path : List Char) :
    List PageStep → List (List Char) → List (List Char) × List (List Char)
  | [], acc => (acc, [])
  | .page p :: rest, acc => extractAux path rest (acc ++ pageStations p)
  | .err e :: _, acc => (acc, [errMsg path e])

/-- The function `extract_swap_stations_from_pdf`: the station list the call returns
and the error messages it prints. -/
def extract_swap_stations_from_pdf (d : Doc) : List (List Char) × List (List Char) :=
  extractAux d.path d.steps []

/-! Folder analysis and aggregation (lines 57-83). -/

/-- The per-file progress message of line 68. -/
def procMsg (path : List Char) : List Char :=
  "  - 正在處理: ".data ++ path

/-- The document loop of lines 67-71: every document is passed to
`extract_swap_stations_from_pdf` and its stations are appended to
`all_swaps`; the printed messages accumulate alongside. -/
def analyzeLoop (docs : List Doc) : List (List Char) × List (List Char) :=
  docs.foldl
    (fun r d =>
      let e := extract_swap_stations_from_pdf d
      (r.1 ++ e.1, r.2 ++ (procMsg d.path :: e.2)))
    ([], [])

/-- Model of `pd.Series(all_swaps).value_counts()`, lines 79-81: the count of each
distinct name, sorted by descending count. -/
def valueCounts (names : List (List Char)) : List (List Char × ℕ) :=
  List.insertionSort (fun a b => b.2 ≤ a.2)
    ((names.dedup).map (fun n => (n, names.count n)))

/-- Lines 79-83: the total swap count and the per-name frequency table
computed from the aggregated name list. -/
def totalAndCounts (names : List (List Char)) : ℕ × List (List Char × ℕ) :=
  (names.length, valueCounts names)

/-! Charting (lines 85-119). -/

/-- The observable outcome of `plot_and_save_analysis`: either a chart
file is saved (with the bars it draws, ascending by count) or the stage
prints a diagnostic and returns without producing a file. -/
inductive PlotOutcome where
  | saved (filename : List Char) (bars : List (List Char × ℕ))
  | skippedWith (msg : List Char)
deriving DecidableEq

/-- The function `plot_and_save_analysis`: line 86 skips (printing the line-87
diagnostic) iff the full input table is empty; otherwise line 90 selects
the names with count `> 1`, line 101 sorts them ascending by count, and
line 118 saves the figure under the given file name. -/
def plot_and_save_analysis (station_counts : List (List Char × ℕ))
    (output_filename : List Char) : PlotOutcome :=
  if station_counts.isEmpty then .skippedWith "沒有資料可供繪圖。".data
  else
    let frequent_stations := station_counts.filter (fun p => 1 < p.2)
    .saved output_filename (List.insertionSort (fun a b => a.2 ≤ b.2) frequent_stations)

/-- The chart file an outcome writes, if any. -/
def savedFile : PlotOutcome → Option (List Char)
  | .saved filename _ => some filename
  | .skippedWith _ => none

/-! Concrete sample data. -/

/-- A billable row as a single positioned word. -/
def sampleToken : Token :=
  ⟨10.2, "陽光公所A 12:30:45 0.85(安時)".data⟩

/-- A decodable page carrying the marker phrase and the sample row. -/
def samplePage : Page :=
  ⟨"電池服務明細表".data, [sampleToken]⟩

/-- A document whose first page decodes fine and whose processing then
raises an exception. -/
def sampleDoc : Doc :=
  ⟨"bill.pdf".data, [PageStep.page samplePage, PageStep.err "boom".data]⟩

/-- Two words on one visual line whose raw coordinates straddle 10. -/
def tokA : Token := ⟨10.2, "ab".data⟩

/-- See `tokA`. -/
def tokB : Token := ⟨9.8, "cd".data⟩

/-! Helper lemmas. -/

theorem containsSub_iff (pat s : List Char) :
    containsSub pat s = true ↔ pat <:+: s := by
  induction s with
  | nil => simp [containsSub, List.isEmpty_iff]
  | cons c rest ih =>
    rw [List.infix_cons_iff]
    simp [containsSub, ih, List.isPrefixOf_iff_prefix]

theorem timeAt_iff (l : List Char) :
    timeAt l = true ↔
      ∃ d1 d2 d3 d4 d5 d6 b, l = [d1, d2, ':', d3, d4, ':', d5, d6] ++ b ∧
        d1.isDigit ∧ d2.isDigit ∧ d3.isDigit ∧ d4.isDigit ∧ d5.isDigit ∧ d6.isDigit := by
  constructor
  · intro h
    rcases l with _ | ⟨d1, _ | ⟨d2, _ | ⟨c1, _ | ⟨d3, _ | ⟨d4, _ | ⟨c2, _ | ⟨d5, _ | ⟨d6, b⟩⟩⟩⟩⟩⟩⟩⟩ <;>
      simp only [timeAt, Bool.and_eq_true, and_assoc, beq_iff_eq, Bool.false_eq_true] at h
    obtain ⟨h1, h2, hc1, h3, h4, hc2, h5, h6⟩ := h
    subst hc1; subst hc2
    exact ⟨d1, d2, d3, d4, d5, d6, b, rfl, h1, h2, h3, h4, h5, h6⟩
  · rintro ⟨d1, d2, d3, d4, d5, d6, b, rfl, h1, h2, h3, h4, h5, h6⟩
    simp [timeAt, h1, h2, h3, h4, h5, h6]

theorem timeSearch_iff (l : List Char) : timeSearch l = true ↔ timeShape l := by
  induction l with
  | nil =>
    simp only [timeSearch, Bool.false_eq_true, false_iff]
    rintro ⟨a, d1, d2, d3, d4, d5, d6, b, heq, -⟩
    have hlen := congrArg List.length heq
    simp only [List.length_nil, List.length_append, List.length_cons] at hlen
    omega
  | cons c rest ih =>
    simp only [timeSearch, Bool.or_eq_true, ih, timeAt_iff]
    constructor
    · rintro (⟨d1, d2, d3, d4, d5, d6, b, heq, hd⟩ | ⟨a, d1, d2, d3, d4, d5, d6, b, heq, hd⟩)
      · exact ⟨[], d1, d2, d3, d4, d5, d6, b, heq, hd⟩
      · exact ⟨c :: a, d1, d2, d3, d4, d5, d6, b, by rw [heq]; rfl, hd⟩
    · rintro ⟨a, d1, d2, d3, d4, d5, d6, b, heq, hd⟩
      rcases a with _ | ⟨x, a⟩
      · exact Or.inl ⟨d1, d2, d3, d4, d5, d6, b, heq, hd⟩
      · have h2 : rest = a ++ [d1, d2, ':', d3, d4, ':', d5, d6] ++ b := by
          simpa using congrArg List.tail heq
        exact Or.inr ⟨a, d1, d2, d3, d4, d5, d6, b, h2, hd⟩

/-! Claims. -/

/-- C2: the Row Classifier accepts a row text iff it contains a
substring of the exact shape two digits, colon, two digits, colon, two
digits and contains the literal unit marker `(安時)`; if either anchor
is absent the row is rejected. -/
theorem claim2_rowClassifier (s : List Char) :
    classifyRow s = true ↔ timeShape s ∧ unitMarker <:+: s := by
  simp [classifyRow, Bool.and_eq_true, timeSearch_iff, containsSub_iff]

/-- C6: on the row text `陽光公所A 12:30:45 0.85(安時)` the classifier
accepts and the Station Extractor emits exactly the single name
`陽光公所`. -/
theorem claim6_scenario :
    classifyRow "陽光公所A 12:30:45 0.85(安時)".data = true ∧
      extractStations "陽光公所A 12:30:45 0.85(安時)".data = ["陽光公所".data] :=
  ⟨rfl, rfl⟩

theorem count_beq_bridge {α : Type} [inst : BEq α] [LawfulBEq α] [DecidableEq α]
    (n : α) (l : List α) :
    l.count n = @List.count _ (instBEqOfDecidableEq) n l := by
  rw [lawful_beq_subsingleton inst (instBEqOfDecidableEq)]

/-- C7: the Aggregator's reported total equals the sum of the per-name
counts of the frequency table, for every sequence of fed names. -/
theorem claim7_total_eq_sum (names : List (List Char)) :
    (((totalAndCounts names).2.map Prod.snd).sum : ℕ) = (totalAndCounts names).1 := by
  have hperm :
      ((valueCounts names).map Prod.snd).Perm
        (((names.dedup).map (fun n => (n, names.count n))).map Prod.snd) :=
    (List.perm_insertionSort _ _).map Prod.snd
  calc ((valueCounts names).map Prod.snd).sum
      = (((names.dedup).map (fun n => (n, names.count n))).map Prod.snd).sum :=
        hperm.sum_eq
    _ = ((names.dedup).map (fun n => names.count n)).sum := by rw [List.map_map]; rfl
    _ = names.length := by
        simp only [count_beq_bridge]
        exact List.sum_map_count_dedup_eq_length names

/-- C9: on an empty frequency table the charting stage produces no file
and emits the `沒有資料可供繪圖。` diagnostic instead. -/
theorem claim9_empty_skips (station_counts : List (List Char × ℕ))
    (output_filename : List Char) (h : station_counts = []) :
    plot_and_save_analysis station_counts output_filename =
        PlotOutcome.skippedWith "沒有資料可供繪圖。".data ∧
      savedFile (plot_and_save_analysis station_counts output_filename) = none := by
  subst h
  exact ⟨rfl, rfl⟩

/-- Witness for C9 at the concrete empty table. -/
theorem claim9_empty_skips_witness :
    plot_and_save_analysis [] "Gogoro換電分析報告.png".data =
        PlotOutcome.skippedWith "沒有資料可供繪圖。".data ∧
      savedFile (plot_and_save_analysis [] "Gogoro換電分析報告.png".data) = none :=
  claim9_empty_skips [] "Gogoro換電分析報告.png".data rfl

/-- C10: on a non-empty table whose counts are all 1, the charting stage
does not skip: it still saves a chart file, with an empty bar list,
because the guard tests emptiness of the full table, not of the
count-greater-than-1 subset. -/
theorem claim10_all_ones_still_saves (station_counts : List (List Char × ℕ))
    (output_filename : List Char) (hne : station_counts ≠ [])
    (hone : ∀ p ∈ station_counts, p.2 = 1) :
    plot_and_save_analysis station_counts output_filename =
      PlotOutcome.saved output_filename [] := by
  have hempty : station_counts.isEmpty = false := by
    simpa [List.isEmpty_iff] using hne
  have hfilter : station_counts.filter (fun p => 1 < p.2) = [] := by
    rw [List.filter_eq_nil_iff]
    intro p hp
    simp [hone p hp]
  simp [plot_and_save_analysis, hempty, hfilter, List.insertionSort]

/-- Witness for C10 at a concrete one-row table with count 1. -/
theorem claim10_all_ones_still_saves_witness :
    plot_and_save_analysis [("信義站".data, 1)] "Gogoro換電分析報告.png".data =
      PlotOutcome.saved "Gogoro換電分析報告.png".data [] :=
  claim10_all_ones_still_saves [("信義站".data, 1)] "Gogoro換電分析報告.png".data
    (by decide) (by decide)

theorem pyStrip_infix_self (s : List Char) : pyStrip s <:+: s := by
  have h1 : s.dropWhile isPySpace <:+ s := List.dropWhile_suffix _
  have h2 : (s.dropWhile isPySpace).reverse.dropWhile isPySpace <:+
      (s.dropWhile isPySpace).reverse := List.dropWhile_suffix _
  have h3 := List.reverse_prefix.mpr h2
  rw [List.reverse_reverse] at h3
  exact h3.isInfix.trans h1.isInfix

theorem subTrailingBay_prefix_self (s : List Char) : subTrailingBay s <+: s := by
  unfold subTrailingBay
  split
  case h_2 => exact List.prefix_refl s
  case h_1 c w rest heq =>
    split
    case isFalse => exact List.prefix_refl s
    case isTrue =>
      have h1 : (w :: rest).dropWhile isPySpace <:+ w :: rest := List.dropWhile_suffix _
      have h2 : (w :: rest).dropWhile isPySpace <:+ s.reverse := by
        rw [heq]
        exact h1.trans (List.suffix_cons c (w :: rest))
      rw [← List.reverse_reverse s]
      exact List.reverse_prefix.mpr h2

theorem processStation_sound (station name : List Char)
    (h : processStation station = some name) :
    name <:+: pyStrip station ∧
      containsSub exclPhrase1 (pyStrip station) = false ∧
      containsSub exclPhrase2 (pyStrip station) = false := by
  simp only [processStation] at h
  split at h
  case isFalse => exact absurd h (by simp)
  case isTrue hg =>
    simp only [Bool.and_eq_true, Bool.not_eq_eq_eq_not, Bool.not_true] at hg
    split at h
    case isTrue => exact absurd h (by simp)
    case isFalse =>
      obtain rfl : pyStrip (subTrailingBay (pyStrip station)) = name :=
        Option.some.inj h
      exact ⟨(pyStrip_infix_self _).trans (subTrailingBay_prefix_self _).isInfix,
        hg.1, hg.2⟩

/-- C4: no StationName emitted by the Station Extractor contains either
exclusion phrase (`換電免費時段折抵` or `計費數量`) as a substring. -/
theorem claim4_no_exclusion_phrase (row_text name : List Char)
    (h : name ∈ extractStations row_text) :
    ¬ exclPhrase1 <:+: name ∧ ¬ exclPhrase2 <:+: name := by
  obtain ⟨station, -, hp⟩ := List.mem_filterMap.mp h
  obtain ⟨hinf, h1, h2⟩ := processStation_sound station name hp
  constructor
  · intro hex
    have : containsSub exclPhrase1 (pyStrip station) = true :=
      (containsSub_iff _ _).mpr (hex.trans hinf)
    simp [this] at h1
  · intro hex
    have : containsSub exclPhrase2 (pyStrip station) = true :=
      (containsSub_iff _ _).mpr (hex.trans hinf)
    simp [this] at h2

/-- Witness for C4 at the sample row and its extracted name. -/
theorem claim4_no_exclusion_phrase_witness :
    ¬ exclPhrase1 <:+: "陽光公所".data ∧ ¬ exclPhrase2 <:+: "陽光公所".data :=
  claim4_no_exclusion_phrase "陽光公所A 12:30:45 0.85(安時)".data "陽光公所".data
    (by decide)

/-- C5: the line-48 cleanup removes a trailing bay letter `A`-`D` exactly
when it is preceded by whitespace: appending a whitespace run and one
such letter to a candidate (itself not ending in whitespace) strips
exactly that suffix, while a trailing letter glued to the base name (no
preceding whitespace) is left untouched. -/
theorem subTrailingBay_eq (s : List Char) (c w : Char) (rest : List Char)
    (h : s.reverse = c :: w :: rest) :
    subTrailingBay s =
      if isABCD c && isPySpace w then ((w :: rest).dropWhile isPySpace).reverse
      else s := by
  unfold subTrailingBay
  rw [h]

theorem claim5_bay_suffix_trim :
    (∀ (s ws : List Char) (X : Char), ws ≠ [] → (∀ c ∈ ws, isPySpace c = true) →
      isABCD X = true → (∀ c, s.getLast? = some c → isPySpace c = false) →
      subTrailingBay (s ++ ws ++ [X]) = s) ∧
    (∀ (s : List Char) (X : Char), isABCD X = true →
      (∀ c, s.getLast? = some c → isPySpace c = false) →
      subTrailingBay (s ++ [X]) = s ++ [X]) := by
  have hdropRev : ∀ (s : List Char), (∀ c, s.getLast? = some c → isPySpace c = false) →
      s.reverse.dropWhile isPySpace = s.reverse := by
    intro s hs
    rcases hrev : s.reverse with _ | ⟨c, t⟩
    · rfl
    · have hc : s.getLast? = some c := by
        rw [← List.head?_reverse, hrev]; rfl
      rw [List.dropWhile_cons, hs c hc]
      simp
  constructor
  · intro s ws X hne hsp hX hlast
    rcases hw : ws.reverse with _ | ⟨w, wt⟩
    · exact absurd (by simpa using congrArg List.reverse hw) hne
    have hwmem : w ∈ ws := by
      have : w ∈ ws.reverse := by rw [hw]; exact List.mem_cons_self w wt
      simpa using this
    have hrev : (s ++ ws ++ [X]).reverse = X :: (w :: (wt ++ s.reverse)) := by
      simp [hw, List.reverse_append]
    rw [subTrailingBay_eq _ X w (wt ++ s.reverse) hrev]
    rw [if_pos (by simp [hX, hsp w hwmem])]
    have hwt : ∀ c ∈ w :: wt, isPySpace c = true := by
      intro c hc
      apply hsp
      have : c ∈ ws.reverse := by rw [hw]; exact hc
      simpa using this
    have hdrop : (w :: (wt ++ s.reverse)).dropWhile isPySpace = s.reverse := by
      have happ : ((w :: wt) ++ s.reverse).dropWhile isPySpace =
          if ((w :: wt).dropWhile isPySpace).isEmpty then s.reverse.dropWhile isPySpace
          else (w :: wt).dropWhile isPySpace ++ s.reverse :=
        List.dropWhile_append
      rw [List.cons_append] at happ
      rw [happ]
      have hnil : (w :: wt).dropWhile isPySpace = [] :=
        List.dropWhile_eq_nil_iff.mpr (fun c hc => by simp [hwt c hc])
      rw [hnil]
      simpa using hdropRev s hlast
    rw [hdrop, List.reverse_reverse]
  · intro s X hX hlast
    rcases hrev : s.reverse with _ | ⟨c, t⟩
    · have hs : s = [] := by simpa using congrArg List.reverse hrev
      subst hs
      rfl
    · have hc : s.getLast? = some c := by
        rw [← List.head?_reverse, hrev]; rfl
      have hrev2 : (s ++ [X]).reverse = X :: c :: t := by
        simp [List.reverse_append, hrev]
      rw [subTrailingBay_eq _ X c t hrev2]
      rw [if_neg (by simp [hlast c hc])]

/-- Witness for C5: `陽光站 A` loses its bay letter and the whitespace,
while the glued letter of `陽光B` stays. -/
theorem claim5_bay_suffix_trim_witness :
    subTrailingBay "陽光站 A".data = "陽光站".data ∧
      subTrailingBay "陽光B".data = "陽光B".data :=
  ⟨claim5_bay_suffix_trim.1 "陽光站".data [' '] 'A' (by decide) (by decide) (by decide)
      (by decide),
    claim5_bay_suffix_trim.2 "陽光".data 'B' (by decide) (by decide)⟩

theorem extractAux_append_acc (path : List Char) (steps : List PageStep)
    (acc : List (List Char)) :
    extractAux path steps acc =
      ((acc ++ (extractAux path steps []).1, (extractAux path steps []).2)) := by
  induction steps generalizing acc with
  | nil => simp [extractAux]
  | cons st rest ih =>
    cases st with
    | page p =>
      rw [extractAux, extractAux, ih (acc ++ pageStations p), ih ([] ++ pageStations p)]
      simp
    | err e => simp [extractAux]

theorem extractAux_pages (path : List Char) (pages : List Page) (e : List Char)
    (rest : List PageStep) :
    extractAux path (pages.map PageStep.page ++ PageStep.err e :: rest) [] =
      ((pages.map pageStations).flatten, [errMsg path e]) := by
  induction pages with
  | nil => simp [extractAux]
  | cons p ps ih =>
    rw [List.map_cons, List.cons_append, extractAux,
      extractAux_append_acc path (ps.map PageStep.page ++ PageStep.err e :: rest), ih]
    simp

theorem rowKey_sampleToken : rowKey sampleToken = 10 := by
  norm_num [rowKey, sampleToken, pyRound]

theorem reconstructRows_sample :
    reconstructRows [sampleToken] = [(10, sampleToken.text)] := by
  rw [reconstructRows]
  simp [rowKey_sampleToken, List.insertionSort, List.orderedInsert, List.filter_cons]

theorem pageStations_sample : pageStations samplePage = ["陽光公所".data] := by
  rw [pageStations]
  rw [if_neg (by decide), if_neg (by decide)]
  have hw : samplePage.words = [sampleToken] := rfl
  rw [hw, reconstructRows_sample]
  simp only [List.map_cons, List.map_nil, List.flatMap_cons, List.flatMap_nil]
  rw [if_pos (by decide)]
  decide

theorem extract_sample :
    extract_swap_stations_from_pdf sampleDoc =
      (["陽光公所".data], [errMsg "bill.pdf".data "boom".data]) := by
  rw [extract_swap_stations_from_pdf]
  show extractAux sampleDoc.path
      [PageStep.page samplePage, PageStep.err "boom".data] [] = _
  rw [extractAux, extractAux]
  rw [pageStations_sample]
  rfl

/-- C1 fails on the code: a document whose processing raises after a page
already yielded a station still contributes that station, not an empty
list (the `except` of line 52 catches the error but line 55 returns the
list accumulated so far). -/
theorem claim1_counterexample :
    (extract_swap_stations_from_pdf sampleDoc).1 = ["陽光公所".data] ∧
      (extract_swap_stations_from_pdf sampleDoc).1 ≠ [] := by
  rw [extract_sample]
  exact ⟨rfl, by simp⟩

/-- C1 amended: a document whose processing raises partway contributes
exactly the stations extracted from the pages processed before the
error (partial records are retained, and pages after the error are
dropped). -/
theorem claim1_amended_partial_records (path : List Char) (pages : List Page)
    (e : List Char) (rest : List PageStep) :
    (extract_swap_stations_from_pdf ⟨path, pages.map PageStep.page ++ PageStep.err e :: rest⟩).1 =
      (pages.map pageStations).flatten := by
  rw [extract_swap_stations_from_pdf, extractAux_pages]

theorem analyzeLoop_eq (docs : List Doc) :
    analyzeLoop docs =
      ((docs.map (fun d => (extract_swap_stations_from_pdf d).1)).flatten,
        (docs.map (fun d => procMsg d.path :: (extract_swap_stations_from_pdf d).2)).flatten) := by
  suffices h : ∀ (a b : List (List Char)),
      docs.foldl
          (fun r d =>
            let e := extract_swap_stations_from_pdf d
            (r.1 ++ e.1, r.2 ++ (procMsg d.path :: e.2)))
          (a, b) =
        (a ++ (docs.map (fun d => (extract_swap_stations_from_pdf d).1)).flatten,
          b ++ (docs.map (fun d => procMsg d.path :: (extract_swap_stations_from_pdf d).2)).flatten) by
    simpa [analyzeLoop] using h [] []
  induction docs with
  | nil => intro a b; simp
  | cons d ds ih =>
    intro a b
    rw [List.foldl_cons, ih]
    simp

theorem extractAux_err_log (path : List Char) (steps : List PageStep)
    (e : List Char) (h : PageStep.err e ∈ steps) :
    ∃ e', (extractAux path steps []).2 = [errMsg path e'] := by
  induction steps with
  | nil => cases h
  | cons st rest ih =>
    cases st with
    | page p =>
      rw [extractAux, extractAux_append_acc]
      exact ih (by simpa using h)
    | err e0 => exact ⟨e0, rfl⟩

/-- C8: a processing error in one document does not abort the run: the
aggregate still contains every document's extraction result (and in
particular every later document is still processed), and for each
failing document the line-53 error message — which names its file as a
substring — appears among the emitted messages. -/
theorem claim8_error_isolation (docs : List Doc) :
    (analyzeLoop docs).1 =
        (docs.map (fun d => (extract_swap_stations_from_pdf d).1)).flatten ∧
      ∀ d ∈ docs, ∀ e, PageStep.err e ∈ d.steps →
        ∃ e', errMsg d.path e' ∈ (analyzeLoop docs).2 ∧
          d.path <:+: errMsg d.path e' := by
  rw [analyzeLoop_eq]
  refine ⟨rfl, ?_⟩
  intro d hd e he
  obtain ⟨e', he'⟩ := extractAux_err_log d.path d.steps e he
  refine ⟨e', ?_, ?_⟩
  · apply List.mem_flatten.mpr
    refine ⟨procMsg d.path :: (extract_swap_stations_from_pdf d).2,
      List.mem_map_of_mem _ hd, ?_⟩
    rw [extract_swap_stations_from_pdf, he']
    simp
  · exact ⟨"處理檔案 '".data, "' 時發生錯誤: ".data ++ e', by simp [errMsg]⟩

/-- Witness for C8 at a one-document run that fails after its first
page. -/
theorem claim8_error_isolation_witness :
    (analyzeLoop [sampleDoc]).1 =
        ([sampleDoc].map (fun d => (extract_swap_stations_from_pdf d).1)).flatten ∧
      ∃ e', errMsg sampleDoc.path e' ∈ (analyzeLoop [sampleDoc]).2 ∧
        sampleDoc.path <:+: errMsg sampleDoc.path e' :=
  ⟨(claim8_error_isolation [sampleDoc]).1,
    (claim8_error_isolation [sampleDoc]).2 sampleDoc (List.mem_singleton.mpr rfl)
      "boom".data (by decide)⟩

theorem reconstructRows_keys (words : List Token) :
    (reconstructRows words).map Prod.fst =
      List.insertionSort (· ≤ ·) ((words.map rowKey).dedup) := by
  rw [reconstructRows, List.map_map]
  exact List.map_id _

/-- C3: row reconstruction places every token in exactly one row (the one
keyed by its rounded vertical coordinate), each row's text is the
concatenation, in original order and with no separator, of the texts of
the tokens with that key, and rows are emitted in non-decreasing key
order. -/
theorem claim3_row_reconstructor (words : List Token) :
    (∀ t ∈ words, ((reconstructRows words).map Prod.fst).count (rowKey t) = 1) ∧
      (∀ k text, (k, text) ∈ reconstructRows words →
        text = ((words.filter (fun t => rowKey t = k)).map Token.text).flatten) ∧
      ((reconstructRows words).map Prod.fst).Pairwise (· ≤ ·) := by
  refine ⟨?_, ?_, ?_⟩
  · intro t ht
    rw [reconstructRows_keys]
    have hnd : (List.insertionSort (· ≤ ·) ((words.map rowKey).dedup)).Nodup :=
      ((List.perm_insertionSort _ _).nodup_iff).mpr ((words.map rowKey).nodup_dedup)
    have hmem : rowKey t ∈ List.insertionSort (· ≤ ·) ((words.map rowKey).dedup) :=
      ((List.perm_insertionSort _ _).mem_iff).mpr
        (List.mem_dedup.mpr (List.mem_map_of_mem rowKey ht))
    rw [count_beq_bridge]
    exact List.count_eq_one_of_mem hnd hmem
  · intro k text hmem
    obtain ⟨k', -, hk⟩ := List.mem_map.mp hmem
    obtain ⟨rfl, rfl⟩ := Prod.mk.injEq .. ▸ hk
    rfl
  · rw [reconstructRows_keys]
    exact List.sorted_insertionSort (· ≤ ·) ((words.map rowKey).dedup)

theorem rowKey_tokA : rowKey tokA = 10 := by
  norm_num [rowKey, tokA, pyRound]

theorem rowKey_tokB : rowKey tokB = 10 := by
  norm_num [rowKey, tokB, pyRound]

theorem reconstructRows_toks :
    reconstructRows [tokA, tokB] = [(10, "abcd".data)] := by
  rw [reconstructRows]
  simp only [List.map_cons, List.map_nil, rowKey_tokA, rowKey_tokB]
  simp [List.insertionSort, List.orderedInsert, List.filter_cons, rowKey_tokA, rowKey_tokB]
  rfl

/-- Witness for C3: two tokens whose coordinates round to the same key
land in one shared row whose text is their in-order concatenation. -/
theorem claim3_row_reconstructor_witness :
    ((reconstructRows [tokA, tokB]).map Prod.fst).count (rowKey tokA) = 1 ∧
      "abcd".data =
        (([tokA, tokB].filter (fun t => rowKey t = 10)).map Token.text).flatten :=
  ⟨(claim3_row_reconstructor [tokA, tokB]).1 tokA (List.mem_cons_self tokA [tokB]),
    (claim3_row_reconstructor [tokA, tokB]).2.1 10 "abcd".data (by
      rw [reconstructRows_toks]
      exact List.mem_singleton.mpr rfl)⟩

end Go
